import Mathlib

set_option maxRecDepth 8000

namespace Asilib

/-- Model of a 2-dimensional numpy float array of height H and width W.
An entry that is `none` stands for NaN (the "no data" marker), and
`some q` stands for the finite value `q` (floats are modelled by rationals). -/
abbrev Gr (H W : Nat) : Type := Fin H → Fin W → Option ℚ

/-- Transcribes `mask = np.isfinite(x) & np.isfinite(y)` from
`pcolormesh_nan` (plot_map.py line 164): a cell is jointly valid exactly
when both the longitude grid and the latitude grid are finite there. -/
def maskG {H W : Nat} (x y : Gr H W) : Fin H → Fin W → Bool :=
  fun i j => (x i j).isSome && (y i j).isSome

/-- Transcribes `good = m.nonzero()[0]` (plot_map.py line 171): the
ascending list of column indices at which the row mask `m` is true. -/
def good {W : Nat} (m : Fin W → Bool) : List (Fin W) :=
  (List.finRange W).filter (fun j => m j)

/-- Transcribes the two in-row assignments of `pcolormesh_nan`
(plot_map.py lines 183-187):
`x[i, good[-1]:] = x[i, good[-1]]` and `x[i, : good[0]] = x[i, good[0]]`.
Columns at or after the last valid index get the value at the last valid
index, columns before the first valid index get the value at the first
valid index, and columns in between keep their value.  A row whose mask
has no valid column is returned unchanged (the loop `continue`s). -/
def clampRow {W : Nat} (r : Fin W → Option ℚ) (m : Fin W → Bool) : Fin W → Option ℚ :=
  match (good m).head?, (good m).getLast? with
  | some a, some b => fun j => if j < a then r a else if b ≤ j then r b else r j
  | _, _ => r

/-- The whole row loop of `pcolormesh_nan` (plot_map.py lines 168-187),
restricted to its effect on one of the two grids: every row is clamped
against the joint mask, rows with no valid column are left unchanged. -/
def clampAll {H W : Nat} (g : Gr H W) (M : Fin H → Fin W → Bool) : Gr H W :=
  fun i => clampRow (g i) (M i)

/-- The ascending list of row indices that have at least one jointly valid
column (the rows not skipped by `if good.size == 0: continue`). -/
def validRows {H W : Nat} (M : Fin H → Fin W → Bool) : List (Fin H) :=
  (List.finRange H).filter (fun i => !(good (M i)).isEmpty)

/-- Transcribes the `top` tracking of `pcolormesh_nan` (plot_map.py lines
165, 176-177): `top` is set once, at the first row with a valid column;
it stays `None` when no row has a valid column. -/
def topIdx {H W : Nat} (M : Fin H → Fin W → Bool) : Option (Fin H) :=
  (validRows M).head?

/-- Transcribes the `bottom` tracking of `pcolormesh_nan` (plot_map.py
lines 166, 179-180): `bottom` is overwritten at every valid row after the
first one, so it ends as the last valid row index when at least two rows
are valid, and stays `None` otherwise (also when exactly one row is valid,
because the first valid row only sets `top`). -/
def bottomIdx {H W : Nat} (M : Fin H → Fin W → Bool) : Option (Fin H) :=
  if 2 ≤ (validRows M).length then (validRows M).getLast? else none

/-- Binary step of `np.nanmax`: NaN entries are ignored, two finite
entries combine by `max`. -/
def omax : Option ℚ → Option ℚ → Option ℚ
  | none, b => b
  | some a, none => some a
  | some a, some b => some (max a b)

/-- Models `np.nanmax` over one row: the maximum of the finite entries,
or NaN (`none`) when every entry is NaN (numpy emits a RuntimeWarning and
returns nan in that case; it does not raise). -/
def nanmaxRow {W : Nat} (r : Fin W → Option ℚ) : Option ℚ :=
  (List.finRange W).foldl (fun acc j => omax acc (r j)) none

/-- Models `np.nanmax` over a whole grid (the `x[None, :]` case that
arises in `pcolormesh_nan` when `top` or `bottom` is `None`). -/
def nanmaxGrid {H W : Nat} (g : Gr H W) : Option ℚ :=
  (List.finRange H).foldl (fun acc i => omax acc (nanmaxRow (g i))) none

/-- Transcribes `x[:top, :] = np.nanmax(x[top, :])` (plot_map.py lines
190-191).  When `top` is an index `t`, every row strictly before `t` is
uniformly overwritten with the nanmax of row `t` of the current array.
When `top` is `None`, Python evaluates `x[:None, :] = np.nanmax(x[None, :])`,
which overwrites the whole array with the nanmax of the whole array. -/
def owTop {H W : Nat} (g : Gr H W) : Option (Fin H) → Gr H W
  | none => fun _ _ => nanmaxGrid g
  | some t => fun i j => if i < t then nanmaxRow (g t) else g i j

/-- Transcribes `x[bottom:, :] = np.nanmax(x[bottom, :])` (plot_map.py
lines 193-194).  When `bottom` is an index `b`, every row at or after `b`
(the slice `x[bottom:]` includes row `b` itself) is uniformly overwritten
with the nanmax of row `b`.  When `bottom` is `None`, Python evaluates
`x[None:, :] = np.nanmax(x[None, :])`, which overwrites the whole array
with the nanmax of the whole current array. -/
def owBottom {H W : Nat} (g : Gr H W) : Option (Fin H) → Gr H W
  | none => fun _ _ => nanmaxGrid g
  | some b => fun i j => if b ≤ i then nanmaxRow (g b) else g i j

/-- The complete effect of `pcolormesh_nan` (plot_map.py lines 163-194) on
one of its two coordinate grids, given the joint mask `M`: the row loop
first, then the `top` overwrite, then the `bottom` overwrite (in source
order, so the `bottom` nanmax is taken over the array already updated by
the `top` assignment). -/
def compressOne {H W : Nat} (g : Gr H W) (M : Fin H → Fin W → Bool) : Gr H W :=
  owBottom (owTop (clampAll g M) (topIdx M)) (bottomIdx M)

/-- The NaN-Boundary Compressor: the pair of coordinate grids computed in
place by `pcolormesh_nan` (plot_map.py lines 163-194) before the call to
`ax.pcolormesh`.  The mask is computed once from the incoming grids; the
frame argument `c` plays no role in the grid compression. -/
def pcolormesh_nan {H W : Nat} (x y : Gr H W) : Gr H W × Gr H W :=
  (compressOne x (maskG x y), compressOne y (maskG x y))

/-- Transcribes the index set `idh` of `_mask_low_horizon` (plot_map.py
lines 210-213): a cell of the elevation grid is bad when the elevation is
NaN or strictly below `min_elevation` (numpy: `np.isnan(el_map) |
(el_map < min_elevation)`; a NaN compares false, so the disjunction is
exactly this). -/
def badCells {H W : Nat} (el : Gr H W) (min_elevation : ℚ) : Fin H → Fin W → Bool :=
  fun r c =>
    match el r c with
    | none => true
    | some v => decide (v < min_elevation)

/-- Transcribes `frame_copy[idh] = np.nan` (plot_map.py line 220) on a
cell-resolution array: bad cells become NaN, other cells keep their value.
The preceding `astype(float)` promotion is the passage from an integer
array to one that can hold NaN at all; in this model every array already
has type `Gr`, so the promotion itself is the identity on values. -/
def cellMask {H W : Nat} (g : Gr H W) (bad : Fin H → Fin W → Bool) : Gr H W :=
  fun r c => if bad r c then none else g r c

/-- Transcribes `lon_map_copy[idh] = np.nan` (plot_map.py lines 221-222)
on a vertex-resolution array (one larger in each dimension than the
elevation grid): vertex (r, c) becomes NaN when cell (r, c) exists and is
bad. -/
def vertMaskCells {H W : Nat} (g : Gr (H + 1) (W + 1))
    (bad : Fin H → Fin W → Bool) : Gr (H + 1) (W + 1) :=
  fun r c =>
    if h : (r : ℕ) < H ∧ (c : ℕ) < W then
      if bad ⟨r, h.1⟩ ⟨c, h.2⟩ then none else g r c
    else g r c

/-- Transcribes `idh_boundary_bottom = (idh[0]+1, idh[1])` and the write
`lon_map_copy[idh_boundary_bottom] = np.nan` (plot_map.py lines 227,
229-230): vertex (r, c) becomes NaN when cell (r-1, c) exists and is bad. -/
def vertMaskBelow {H W : Nat} (g : Gr (H + 1) (W + 1))
    (bad : Fin H → Fin W → Bool) : Gr (H + 1) (W + 1) :=
  fun r c =>
    if h : 1 ≤ (r : ℕ) ∧ (r : ℕ) - 1 < H ∧ (c : ℕ) < W then
      if bad ⟨(r : ℕ) - 1, h.2.1⟩ ⟨c, h.2.2⟩ then none else g r c
    else g r c

/-- Transcribes `idh_boundary_right = (idh[0], idh[1]+1)` and the write
`lon_map_copy[idh_boundary_right] = np.nan` (plot_map.py lines 228,
231-232): vertex (r, c) becomes NaN when cell (r, c-1) exists and is bad. -/
def vertMaskRight {H W : Nat} (g : Gr (H + 1) (W + 1))
    (bad : Fin H → Fin W → Bool) : Gr (H + 1) (W + 1) :=
  fun r c =>
    if h : 1 ≤ (c : ℕ) ∧ (r : ℕ) < H ∧ (c : ℕ) - 1 < W then
      if bad ⟨r, h.2.1⟩ ⟨(c : ℕ) - 1, h.2.2⟩ then none else g r c
    else g r c

/-- The value-level result of `_mask_low_horizon` (plot_map.py lines
204-233): masked copies of the frame and of the two vertex-resolution
coordinate grids.  The writes on each copy are composed in source order;
since every write only sets entries to NaN from the same `idh` set, the
three arrays do not interact. -/
def mask_low_horizon {H W : Nat} (frame el : Gr H W)
    (lon lat : Gr (H + 1) (W + 1)) (min_elevation : ℚ) :
    Gr H W × Gr (H + 1) (W + 1) × Gr (H + 1) (W + 1) :=
  let bad := badCells el min_elevation
  (cellMask frame bad,
   vertMaskRight (vertMaskBelow (vertMaskCells lon bad) bad) bad,
   vertMaskRight (vertMaskBelow (vertMaskCells lat bad) bad) bad)

/-- Heap of array objects used to model Python object identity for
`_mask_low_horizon`: cell-resolution arrays (the frame and its copies)
and vertex-resolution arrays (the coordinate grids and their copies) each
live in a reference-indexed store, with a bump allocator per store. -/
structure MlhHeap (H W : Nat) where
  cell : Nat → Gr H W
  vert : Nat → Gr (H + 1) (W + 1)
  nextC : Nat
  nextV : Nat

/-- Pointwise update of a reference-indexed store. -/
def updFn {α : Type} (h : Nat → α) (r : Nat) (v : α) : Nat → α :=
  fun s => if s = r then v else h s

/-- Statement-by-statement transcription of the body of
`_mask_low_horizon` (plot_map.py lines 204-233) over the object heap.
`frame.copy()`, `lon_map.copy()`, `lat_map.copy()` and
`frame_copy.astype(float)` each allocate a fresh array object; every
subscript assignment writes through the reference the assigned name is
bound to, which is always one of the fresh copies.  Returns the final
heap together with the references returned to the caller. -/
def mask_low_horizon_run {H W : Nat} (s0 : MlhHeap H W)
    (rFrame rLon rLat : Nat) (el : Gr H W) (min_elevation : ℚ) :
    MlhHeap H W × (Nat × Nat × Nat) :=
  let bad := badCells el min_elevation
  let rC1 := s0.nextC
  let s1 : MlhHeap H W :=
    { s0 with cell := updFn s0.cell rC1 (s0.cell rFrame), nextC := rC1 + 1 }
  let rLonC := s1.nextV
  let s2 : MlhHeap H W :=
    { s1 with vert := updFn s1.vert rLonC (s1.vert rLon), nextV := rLonC + 1 }
  let rLatC := s2.nextV
  let s3 : MlhHeap H W :=
    { s2 with vert := updFn s2.vert rLatC (s2.vert rLat), nextV := rLatC + 1 }
  let rFC := s3.nextC
  let s4 : MlhHeap H W :=
    { s3 with cell := updFn s3.cell rFC (s3.cell rC1), nextC := rFC + 1 }
  let s5 : MlhHeap H W :=
    { s4 with cell := updFn s4.cell rFC (cellMask (s4.cell rFC) bad) }
  let s6 : MlhHeap H W :=
    { s5 with vert := updFn s5.vert rLonC (vertMaskCells (s5.vert rLonC) bad) }
  let s7 : MlhHeap H W :=
    { s6 with vert := updFn s6.vert rLatC (vertMaskCells (s6.vert rLatC) bad) }
  let s8 : MlhHeap H W :=
    { s7 with vert := updFn s7.vert rLonC (vertMaskBelow (s7.vert rLonC) bad) }
  let s9 : MlhHeap H W :=
    { s8 with vert := updFn s8.vert rLatC (vertMaskBelow (s8.vert rLatC) bad) }
  let s10 : MlhHeap H W :=
    { s9 with vert := updFn s9.vert rLonC (vertMaskRight (s9.vert rLonC) bad) }
  let s11 : MlhHeap H W :=
    { s10 with vert := updFn s10.vert rLatC (vertMaskRight (s10.vert rLatC) bad) }
  (s11, (rFC, rLonC, rLatC))

/-- Heap of array objects for `pcolormesh_nan`: the caller passes the two
vertex-resolution coordinate arrays `x`, `y` and the cell-resolution frame
`c` by reference; the function allocates nothing that the caller sees. -/
structure PcHeap (H W Hc Wc : Nat) where
  vert : Nat → Gr H W
  cell : Nat → Gr Hc Wc

/-- Writes one vertex-resolution array object of a `PcHeap`. -/
def pwriteV {H W Hc Wc : Nat} (s : PcHeap H W Hc Wc) (r : Nat) (g : Gr H W) :
    PcHeap H W Hc Wc :=
  { s with vert := updFn s.vert r g }

/-- Replaces row `i` of a grid (an in-place row assignment). -/
def updateRow {H W : Nat} (g : Gr H W) (i : Fin H) (row : Fin W → Option ℚ) :
    Gr H W :=
  fun i2 => if i2 = i then row else g i2

/-- One iteration of the row loop of `pcolormesh_nan` (plot_map.py lines
168-187) over the object heap: rows whose mask has no valid column are
skipped; otherwise the current row of the `x` object and then of the `y`
object is clamped in place (the second clamp reads the heap already
updated by the first, which matters if the caller aliased `x` and `y`). -/
def pc_loop_step {H W Hc Wc : Nat} (M : Fin H → Fin W → Bool)
    (rx ry : Nat) (s : PcHeap H W Hc Wc) (i : Fin H) : PcHeap H W Hc Wc :=
  if (good (M i)).isEmpty then s
  else
    let s1 := pwriteV s rx (updateRow (s.vert rx) i (clampRow (s.vert rx i) (M i)))
    pwriteV s1 ry (updateRow (s1.vert ry) i (clampRow (s1.vert ry i) (M i)))

/-- Statement-by-statement transcription of `pcolormesh_nan` (plot_map.py
lines 144-201) over the object heap: the mask is computed once from the
incoming `x` and `y` objects, the row loop then mutates `x` and `y` in
place, and the four trailing slice assignments (lines 190-194) overwrite
the top rows and then the bottom rows of each object, each reading the
current heap.  The frame object `c` is only ever read (line 198 passes the
reversed copy `c[::-1, ::-1]` to the plotting backend), never written. -/
def pcolormesh_nan_run {H W Hc Wc : Nat} (s0 : PcHeap H W Hc Wc)
    (rx ry rc : Nat) : PcHeap H W Hc Wc :=
  let M := maskG (s0.vert rx) (s0.vert ry)
  let s1 := (List.finRange H).foldl (pc_loop_step M rx ry) s0
  let s2 := pwriteV s1 rx (owTop (s1.vert rx) (topIdx M))
  let s3 := pwriteV s2 ry (owTop (s2.vert ry) (topIdx M))
  let s4 := pwriteV s3 rx (owBottom (s3.vert rx) (bottomIdx M))
  pwriteV s4 ry (owBottom (s4.vert ry) (bottomIdx M))

/-- The two colormaps the source can select under `color_map = 'auto'`:
the greyscale palette string `Greys_r` for THEMIS and the black-to-red
`LinearSegmentedColormap` built for REGO. -/
inductive CmapChoice where
  | greys_r : CmapChoice
  | black_to_red : CmapChoice
deriving DecidableEq

/-- Models Python `str.lower()` for the mission identifiers: lower-cases
every character (structurally over the character list, so that concrete
evaluation reduces). -/
def pyLower (s : String) : String := ⟨s.data.map Char.toLower⟩

/-- Transcribes the colormap selection of `plot_map` (plot_map.py lines
122-127).  The `if / elif / else` chain raises `NotImplementedError`
(modelled by `Except.error ()`) whenever neither guard holds - in
particular for every call in which `color_map` is not the string `auto`,
whatever the mission is, because both guards conjoin `color_map == 'auto'`
with the mission test and the `else` branch raises unconditionally. -/
def select_color_map (color_map mission : String) : Except Unit CmapChoice :=
  if color_map = "auto" ∧ pyLower mission = "themis" then .ok .greys_r
  else if color_map = "auto" ∧ pyLower mission = "rego" then .ok .black_to_red
  else .error ()

/-- Transcribes the altitude match of the exact mode of `trex_rgb`
(trex.py line 167): the indices `i` of the calibration stack whose
altitude, converted from meters to kilometers, equals the requested
altitude (`np.where(_skymap['FULL_MAP_ALTITUDE'] / 1000 == alt)[0]`). -/
def altMatches (altitudes_m : List ℚ) (alt : ℚ) : List Nat :=
  (List.range altitudes_m.length).filter
    (fun i => altitudes_m.getD i 0 / 1000 = alt)

/-- An all-NaN grid, the `getD` default for out-of-range stack access
(never reached under the hypotheses of the theorems below). -/
def zeroGrid {H W : Nat} : Gr H W := fun _ _ => none

/-- Transcribes the exact mode (`custom_alt == False`) of `trex_rgb`
(trex.py lines 166-173): the altitude match list must have length exactly
one (`assert len(alt_index) == 1`), in which case the latitude and
longitude grids stored at the matching index are returned; otherwise the
assertion fails.  The failure message interpolates
`_skymap["FULL_MAP_ALTITUDE"]/1000`, the valid altitude set in kilometers,
which the model carries as the payload of `Except.error`. -/
def trex_resolve_alt (altitudes_m : List ℚ) {H W : Nat}
    (latStack lonStack : List (Gr H W)) (alt : ℚ) :
    Except (List ℚ) (Gr H W × Gr H W) :=
  let idxs := altMatches altitudes_m alt
  if idxs.length = 1 then
    .ok (latStack.getD (idxs.getD 0 0) zeroGrid,
         lonStack.getD (idxs.getD 0 0) zeroGrid)
  else .error (altitudes_m.map (fun a => a / 1000))

/-- Concrete grids used by the closed counterexample theorems below. -/
def c1grid : Gr 3 2 := ![![none, none], ![some 1, some 2], ![none, none]]

/-- An all-NaN pair of coordinate grids (no row has any valid entry). -/
def c2grid : Gr 2 2 := fun _ _ => none

/-- Valid first and last rows with a fully invalid row in between. -/
def c3grid : Gr 3 1 := ![![some 1], ![none], ![some 2]]

/-- A 1-by-1 elevation grid whose only cell is below the threshold. -/
def c5el : Gr 1 1 := ![![some 0]]

/-- A fully valid 2-by-2 vertex grid with distinct entries. -/
def c5vert : Gr 2 2 := ![![some 10, some 11], ![some 12, some 13]]

/-- A fully valid 2-by-2 coordinate grid whose bottom row is not uniform. -/
def c6grid : Gr 2 2 := ![![some 1, some 2], ![some 3, some 4]]

/-- A 1-by-1 frame used by the horizon-masker witnesses. -/
def c5frame : Gr 1 1 := ![![some 1]]

/-- Latitude stack for the altitude-resolver witness (altitudes 90, 110,
130 km; the grid at index i is constantly the altitude). -/
def c4latStack : List (Gr 1 1) :=
  [fun _ _ => some 90, fun _ _ => some 110, fun _ _ => some 130]

/-- Longitude stack for the altitude-resolver witness. -/
def c4lonStack : List (Gr 1 1) :=
  [fun _ _ => some (-90), fun _ _ => some (-110), fun _ _ => some (-130)]

/-- Concrete heap for the horizon-masker mutation witness: one caller
cell array at reference 0 and two caller vertex arrays at references 0
and 1. -/
def c8heap : MlhHeap 1 1 :=
  ⟨fun _ => (fun _ _ => some 5), fun _ => (fun _ _ => some 7), 1, 2⟩

/-- Elevation grid for the mutation witness (bad below threshold 10). -/
def c8el : Gr 1 1 := ![![some 0]]

/-- Elevation grid for the monotonicity witness (well above thresholds). -/
def c9el : Gr 1 1 := ![![some 50]]

/-- Concrete heap for the compressor mutation witness: `x` at vertex
reference 0, `y` at vertex reference 1, the frame at cell reference 0. -/
def c10heap : PcHeap 1 1 1 1 :=
  ⟨fun r => (fun _ _ => if r = 0 then some 1 else some 2), fun _ => (fun _ _ => some 3)⟩

theorem head?_eq_of_min {α : Type} [LinearOrder α] {l : List α} {a : α}
    (hp : l.Pairwise (· < ·)) (ha : a ∈ l) (hmin : ∀ b ∈ l, a ≤ b) :
    l.head? = some a := by
  cases l with
  | nil => cases ha
  | cons x t =>
    simp only [List.head?_cons, Option.some.injEq]
    rcases List.mem_cons.mp ha with h | h
    · exact h.symm
    · have hxa : x < a := (List.pairwise_cons.mp hp).1 a h
      have := hmin x (List.mem_cons_self x t)
      exact absurd hxa (not_lt.mpr this)

theorem getLast?_eq_of_max {α : Type} [LinearOrder α] {l : List α} {a : α}
    (hp : l.Pairwise (· < ·)) (ha : a ∈ l) (hmax : ∀ b ∈ l, b ≤ a) :
    l.getLast? = some a := by
  induction l with
  | nil => cases ha
  | cons x t ih =>
    cases t with
    | nil =>
      simp only [List.mem_singleton] at ha
      simp [ha]
    | cons y u =>
      rw [List.getLast?_cons_cons]
      have hp2 : (y :: u).Pairwise (· < ·) := (List.pairwise_cons.mp hp).2
      have hmem : a ∈ y :: u := by
        rcases List.mem_cons.mp ha with h | h
        · exfalso
          have hxy : x < y := (List.pairwise_cons.mp hp).1 y (List.mem_cons_self y u)
          have hy := hmax y (List.mem_cons.mpr (Or.inr (List.mem_cons_self y u)))
          rw [h] at hy
          exact absurd hxy (not_lt.mpr hy)
        · exact h
      exact ih hp2 hmem (fun b hb => hmax b (List.mem_cons.mpr (Or.inr hb)))

theorem head?_lt_getLast? {α : Type} [LinearOrder α] {l : List α} {a c : α}
    (hp : l.Pairwise (· < ·)) (hlen : 2 ≤ l.length)
    (hh : l.head? = some a) (hl : l.getLast? = some c) : a < c := by
  cases l with
  | nil => simp at hh
  | cons x t =>
    cases t with
    | nil => simp at hlen
    | cons y u =>
      simp only [List.head?_cons, Option.some.injEq] at hh
      rw [List.getLast?_cons_cons] at hl
      have hc : c ∈ y :: u := by
        have : (y :: u) ≠ [] := by simp
        rcases List.getLast?_eq_getLast (y :: u) this ▸ hl with h
        subst hh
        exact (Option.some.injEq _ _).mp h ▸ List.getLast_mem this
      subst hh
      exact (List.pairwise_cons.mp hp).1 c hc

theorem two_le_length_of_two_mem {α : Type} {l : List α} {a b : α}
    (ha : a ∈ l) (hb : b ∈ l) (hab : a ≠ b) : 2 ≤ l.length := by
  cases l with
  | nil => cases ha
  | cons x t =>
    cases t with
    | nil =>
      simp only [List.mem_singleton] at ha hb
      exact absurd (ha.trans hb.symm) hab
    | cons y u => simp [Nat.succ_le_succ, Nat.le_add_left]

theorem mem_good {W : Nat} {m : Fin W → Bool} {j : Fin W} :
    j ∈ good m ↔ m j = true := by
  simp [good, List.mem_filter, List.mem_finRange]

theorem good_pairwise {W : Nat} (m : Fin W → Bool) :
    (good m).Pairwise (· < ·) :=
  (List.pairwise_lt_finRange W).sublist (List.filter_sublist _)

theorem good_eq_nil_iff {W : Nat} {m : Fin W → Bool} :
    good m = [] ↔ ∀ j, m j = false := by
  constructor
  · intro h j
    by_contra hj
    have : m j = true := by
      cases hmj : m j
      · exact absurd hmj hj
      · rfl
    have : j ∈ good m := mem_good.mpr this
    rw [h] at this
    cases this
  · intro h
    rw [good]
    rw [List.filter_eq_nil_iff]
    intro a _
    simp [h a]

theorem mem_validRows {H W : Nat} {M : Fin H → Fin W → Bool} {i : Fin H} :
    i ∈ validRows M ↔ good (M i) ≠ [] := by
  rw [validRows, List.mem_filter]
  constructor
  · rintro ⟨-, h⟩
    intro hnil
    rw [hnil] at h
    simp at h
  · intro h
    refine ⟨List.mem_finRange i, ?_⟩
    cases hgd : good (M i) with
    | nil => exact absurd hgd h
    | cons a t => simp [hgd]

theorem validRows_pairwise {H W : Nat} (M : Fin H → Fin W → Bool) :
    (validRows M).Pairwise (· < ·) :=
  (List.pairwise_lt_finRange H).sublist (List.filter_sublist _)

theorem topIdx_mem {H W : Nat} {M : Fin H → Fin W → Bool} {t : Fin H}
    (h : topIdx M = some t) : good (M t) ≠ [] := by
  rw [topIdx] at h
  exact mem_validRows.mp (List.mem_of_mem_head? h)

theorem bottomIdx_mem {H W : Nat} {M : Fin H → Fin W → Bool} {b : Fin H}
    (h : bottomIdx M = some b) : good (M b) ≠ [] := by
  rw [bottomIdx] at h
  by_cases h2 : 2 ≤ (validRows M).length
  · rw [if_pos h2] at h
    have hb : b ∈ validRows M := by
      have hne : validRows M ≠ [] := by
        intro hnil
        rw [hnil] at h
        simp at h
      rw [List.getLast?_eq_getLast _ hne] at h
      exact (Option.some.injEq _ _).mp h ▸ List.getLast_mem hne
    exact mem_validRows.mp hb
  · rw [if_neg h2] at h
    cases h

theorem topIdx_lt_bottomIdx {H W : Nat} {M : Fin H → Fin W → Bool}
    {t b : Fin H} (ht : topIdx M = some t) (hb : bottomIdx M = some b) :
    t < b := by
  rw [topIdx] at ht
  rw [bottomIdx] at hb
  by_cases h2 : 2 ≤ (validRows M).length
  · rw [if_pos h2] at hb
    exact head?_lt_getLast? (validRows_pairwise M) h2 ht hb
  · rw [if_neg h2] at hb
    cases hb

theorem mem_of_getLast? {α : Type} {l : List α} {a : α}
    (h : l.getLast? = some a) : a ∈ l := by
  cases l with
  | nil => simp at h
  | cons x t =>
    have hne : (x :: t) ≠ [] := by simp
    rw [List.getLast?_eq_getLast _ hne] at h
    exact (Option.some.injEq _ _).mp h ▸ List.getLast_mem hne

theorem head?_min {α : Type} [LinearOrder α] {l : List α} {a : α}
    (hp : l.Pairwise (· < ·)) (h : l.head? = some a) : ∀ b ∈ l, a ≤ b := by
  cases l with
  | nil => simp at h
  | cons x t =>
    simp only [List.head?_cons, Option.some.injEq] at h
    intro b hb
    rcases List.mem_cons.mp hb with h2 | h2
    · exact le_of_eq (h.symm.trans h2.symm)
    · have hx := (List.pairwise_cons.mp hp).1 b h2
      rw [h] at hx
      exact le_of_lt hx

theorem getLast?_max {α : Type} [LinearOrder α] {l : List α} {a : α}
    (hp : l.Pairwise (· < ·)) (h : l.getLast? = some a) : ∀ b ∈ l, b ≤ a := by
  induction l with
  | nil => simp at h
  | cons x t ih =>
    cases t with
    | nil =>
      simp only [List.getLast?_singleton, Option.some.injEq] at h
      intro b hb
      simp only [List.mem_singleton] at hb
      exact le_of_eq (hb.trans h)
    | cons y u =>
      rw [List.getLast?_cons_cons] at h
      have hp2 : (y :: u).Pairwise (· < ·) := (List.pairwise_cons.mp hp).2
      intro b hb
      rcases List.mem_cons.mp hb with hbx | hbt
      · have : a ∈ y :: u := mem_of_getLast? h
        exact hbx ▸ le_of_lt ((List.pairwise_cons.mp hp).1 a this)
      · exact ih hp2 h b hbt

theorem foldl_omax_isSome {α : Type} {f : α → Option ℚ} :
    ∀ (l : List α) (acc : Option ℚ),
      (acc.isSome = true ∨ ∃ x ∈ l, (f x).isSome = true) →
      (l.foldl (fun a x => omax a (f x)) acc).isSome = true := by
  intro l
  induction l with
  | nil =>
    intro acc h
    rcases h with h | ⟨x, hx, -⟩
    · exact h
    · cases hx
  | cons x t ih =>
    intro acc h
    rw [List.foldl_cons]
    rcases h with h | ⟨z, hz, hfz⟩
    · apply ih
      left
      cases hacc : acc with
      | none => rw [hacc] at h; simp at h
      | some v =>
        cases hfx : f x with
        | none => simp [omax]
        | some w => simp [omax]
    · rcases List.mem_cons.mp hz with hzx | hzt
      · apply ih
        left
        subst hzx
        cases hfx : f z with
        | none => rw [hfx] at hfz; simp at hfz
        | some w =>
          cases hacc : acc with
          | none => simp [omax]
          | some v => simp [omax]
      · exact ih _ (Or.inr ⟨z, hzt, hfz⟩)

theorem foldl_omax_const {α : Type} {f : α → Option ℚ} {v : ℚ} :
    ∀ (l : List α) (acc : Option ℚ),
      (∀ x ∈ l, f x = some v) → (acc = none ∨ acc = some v) → l ≠ [] →
      l.foldl (fun a x => omax a (f x)) acc = some v := by
  intro l
  induction l with
  | nil => intro acc _ _ h; exact absurd rfl h
  | cons x t ih =>
    intro acc hf hacc _
    rw [List.foldl_cons]
    have hfx : f x = some v := hf x (List.mem_cons_self x t)
    have hstep : omax acc (f x) = some v := by
      rcases hacc with h | h <;> rw [h, hfx] <;> simp [omax]
    cases t with
    | nil => simpa using hstep
    | cons y u =>
      apply ih
      · intro z hz
        exact hf z (List.mem_cons.mpr (Or.inr hz))
      · right
        exact hstep
      · simp

theorem nanmaxRow_isSome {W : Nat} {r : Fin W → Option ℚ} (j : Fin W)
    (h : (r j).isSome = true) : (nanmaxRow r).isSome = true :=
  foldl_omax_isSome _ _ (Or.inr ⟨j, List.mem_finRange j, h⟩)

theorem nanmaxRow_const {W : Nat} {r : Fin W → Option ℚ} {v : ℚ}
    (hW : 0 < W) (h : ∀ j, r j = some v) : nanmaxRow r = some v := by
  apply foldl_omax_const
  · intro x _
    exact h x
  · left; rfl
  · intro hnil
    have : (List.finRange W).length = 0 := by rw [hnil]; rfl
    rw [List.length_finRange] at this
    omega

theorem nanmaxGrid_isSome {H W : Nat} {g : Gr H W} (i : Fin H) (j : Fin W)
    (h : (g i j).isSome = true) : (nanmaxGrid g).isSome = true :=
  foldl_omax_isSome _ _ (Or.inr ⟨i, List.mem_finRange i, nanmaxRow_isSome j h⟩)

theorem nanmaxGrid_const {H W : Nat} {g : Gr H W} {v : ℚ}
    (hH : 0 < H) (hW : 0 < W) (h : ∀ i j, g i j = some v) :
    nanmaxGrid g = some v := by
  apply foldl_omax_const
  · intro i _
    exact nanmaxRow_const hW (h i)
  · left; rfl
  · intro hnil
    have : (List.finRange H).length = 0 := by rw [hnil]; rfl
    rw [List.length_finRange] at this
    omega

theorem clampRow_of_nil {W : Nat} {r : Fin W → Option ℚ} {m : Fin W → Bool}
    (h : good m = []) : clampRow r m = r := by
  rw [clampRow, h]
  rfl

theorem clampRow_eq {W : Nat} {r : Fin W → Option ℚ} {m : Fin W → Bool}
    {a b : Fin W} (h0 : (good m).head? = some a)
    (hl : (good m).getLast? = some b) :
    clampRow r m = fun j => if j < a then r a else if b ≤ j then r b else r j := by
  rw [clampRow, h0, hl]

theorem clampRow_id {W : Nat} {r : Fin W → Option ℚ} {m : Fin W → Bool}
    {a b : Fin W} (h0 : (good m).head? = some a) (ha : (a : ℕ) = 0)
    (hl : (good m).getLast? = some b) (hb : (b : ℕ) = W - 1) :
    clampRow r m = r := by
  rw [clampRow_eq h0 hl]
  funext j
  have hja : ¬ j < a := by
    rw [Fin.lt_def, ha]
    omega
  rw [if_neg hja]
  by_cases h2 : b ≤ j
  · have hjb : j = b := by
      apply Fin.le_antisymm _ h2
      rw [Fin.le_def, hb]
      have := j.isLt
      omega
    rw [if_pos h2, hjb]
  · rw [if_neg h2]

theorem good_ne_nil_of_mem {W : Nat} {m : Fin W → Bool} {j : Fin W}
    (h : m j = true) : good m ≠ [] := by
  intro hnil
  have := mem_good.mpr h
  rw [hnil] at this
  cases this

theorem good_head?_of_ne_nil {W : Nat} {m : Fin W → Bool}
    (h : good m ≠ []) : ∃ a, (good m).head? = some a := by
  cases hh : (good m).head? with
  | none => exact absurd (List.head?_eq_none_iff.mp hh) h
  | some a => exact ⟨a, rfl⟩

theorem good_getLast?_of_ne_nil {W : Nat} {m : Fin W → Bool}
    (h : good m ≠ []) : ∃ a, (good m).getLast? = some a := by
  rw [List.getLast?_eq_getLast _ h]
  exact ⟨_, rfl⟩

theorem good_congr {W : Nat} {m1 m2 : Fin W → Bool}
    (h : ∀ j, m1 j = m2 j) : good m1 = good m2 := by
  have : m1 = m2 := funext h
  rw [good, good, this]

/-- If the extreme columns 0 and W-1 of a row mask are valid, the row
clamping is the identity on that row. -/
theorem clampRow_id_of_extremes {W : Nat} {r : Fin W → Option ℚ}
    {m : Fin W → Bool} (hW : 0 < W) (h0 : m ⟨0, hW⟩ = true)
    (hl : m ⟨W - 1, by omega⟩ = true) : clampRow r m = r := by
  have hh : (good m).head? = some ⟨0, hW⟩ := by
    apply head?_eq_of_min (good_pairwise m) (mem_good.mpr h0)
    intro b _
    rw [Fin.le_def]
    show 0 ≤ (b : ℕ)
    omega
  have hg : (good m).getLast? = some ⟨W - 1, by omega⟩ := by
    apply getLast?_eq_of_max (good_pairwise m) (mem_good.mpr hl)
    intro b _
    rw [Fin.le_def]
    show (b : ℕ) ≤ W - 1
    have := b.isLt
    omega
  exact clampRow_id hh rfl hg rfl

/-- A clamped row of a grid that is finite on its mask has a finite entry
at the first valid column. -/
theorem clampRow_head_isSome {W : Nat} {r : Fin W → Option ℚ}
    {m : Fin W → Bool} (hrm : ∀ j, m j = true → (r j).isSome = true)
    {a : Fin W} (h0 : (good m).head? = some a) :
    (clampRow r m a).isSome = true := by
  have hne : good m ≠ [] := by
    intro hnil
    rw [hnil] at h0
    cases h0
  obtain ⟨b, hb⟩ := good_getLast?_of_ne_nil hne
  rw [clampRow_eq h0 hb]
  simp only
  rw [if_neg (lt_irrefl a)]
  by_cases h2 : b ≤ a
  · rw [if_pos h2]
    exact hrm b (mem_good.mp (mem_of_getLast? hb))
  · rw [if_neg h2]
    exact hrm a (mem_good.mp (List.mem_of_mem_head? h0))

/-- Characterization of `compressOne` when at least two rows are valid:
rows at or after `bottom` are uniformly the nanmax of the clamped bottom
row, rows strictly before `top` are uniformly the nanmax of the clamped
top row, and every other row is its clamped self. -/
theorem compressOne_two {H W : Nat} {g : Gr H W} {M : Fin H → Fin W → Bool}
    {t b : Fin H} (ht : topIdx M = some t) (hb : bottomIdx M = some b) :
    compressOne g M = fun i j =>
      if b ≤ i then nanmaxRow (clampRow (g b) (M b))
      else if i < t then nanmaxRow (clampRow (g t) (M t))
      else clampRow (g i) (M i) j := by
  have htb : t < b := topIdx_lt_bottomIdx ht hb
  have hnbt : ¬ b < t := not_lt.mpr (le_of_lt htb)
  funext i j
  rw [compressOne, ht, hb]
  simp only [owBottom, owTop, clampAll]
  by_cases hbi : b ≤ i
  · rw [if_pos hbi, if_pos hbi]
    congr 1
    funext j2
    rw [if_neg hnbt]
  · rw [if_neg hbi, if_neg hbi]

/-- Characterization of `compressOne` when `top` is set but `bottom` is
not (exactly one valid row, or none after the loop skips): the whole
output grid is uniformly the nanmax of the whole array after the `top`
overwrite, because `x[None:, :] = np.nanmax(x[None, :])` covers every
row. -/
theorem compressOne_one {H W : Nat} {g : Gr H W} {M : Fin H → Fin W → Bool}
    {t : Fin H} (ht : topIdx M = some t) (hb : bottomIdx M = none) :
    compressOne g M =
      fun _ _ => nanmaxGrid (owTop (clampAll g M) (some t)) := by
  rw [compressOne, ht, hb]
  rfl

theorem good_exists_of_ne_nil {W : Nat} {m : Fin W → Bool}
    (h : good m ≠ []) : ∃ j, m j = true := by
  obtain ⟨a, ha⟩ := good_head?_of_ne_nil h
  exact ⟨a, mem_good.mp (List.mem_of_mem_head? ha)⟩

theorem topIdx_isSome_of_valid {H W : Nat} {M : Fin H → Fin W → Bool}
    {i0 : Fin H} {j0 : Fin W} (hij0 : M i0 j0 = true) :
    ∃ t, topIdx M = some t := by
  have hvne : validRows M ≠ [] := by
    intro hnil
    have : i0 ∈ validRows M := mem_validRows.mpr (good_ne_nil_of_mem hij0)
    rw [hnil] at this
    cases this
  rw [topIdx]
  cases hh : (validRows M).head? with
  | none => exact absurd (List.head?_eq_none_iff.mp hh) hvne
  | some a => exact ⟨a, rfl⟩

/-- Totality of the compression under the two side conditions of the
amended claim: the joint mask has a valid cell somewhere, valid columns
within a row form an interval, and a row strictly between two valid rows
is itself valid.  Every output cell of a grid that is finite on the mask
is then finite. -/
theorem compress_total {H W : Nat} {g : Gr H W} {M : Fin H → Fin W → Bool}
    (hgm : ∀ i j, M i j = true → (g i j).isSome = true)
    (h1 : ∃ i j, M i j = true)
    (h2 : ∀ (i : Fin H) (j1 j2 j : Fin W), M i j1 = true → M i j2 = true →
      j1 ≤ j → j ≤ j2 → M i j = true)
    (h3 : ∀ (i i1 i2 : Fin H) (j1 j2 : Fin W), M i1 j1 = true →
      M i2 j2 = true → i1 < i → i < i2 → ∃ j, M i j = true) :
    ∀ i j, (compressOne g M i j).isSome = true := by
  obtain ⟨i0, j0, hij0⟩ := h1
  obtain ⟨t, ht⟩ := topIdx_isSome_of_valid hij0
  have hgoodt : good (M t) ≠ [] := topIdx_mem ht
  obtain ⟨ja, hja⟩ := good_head?_of_ne_nil hgoodt
  cases hbot : bottomIdx M with
  | none =>
    intro i j
    rw [compressOne_one ht hbot]
    apply nanmaxGrid_isSome t ja
    show ((owTop (clampAll g M) (some t)) t ja).isSome = true
    simp only [owTop, if_neg (lt_irrefl t), clampAll]
    exact clampRow_head_isSome (fun j2 hj => hgm t j2 hj) hja
  | some b =>
    have hgoodb : good (M b) ≠ [] := bottomIdx_mem hbot
    obtain ⟨jb, hjb⟩ := good_head?_of_ne_nil hgoodb
    intro i j
    rw [compressOne_two ht hbot]
    simp only
    by_cases hbi : b ≤ i
    · rw [if_pos hbi]
      exact nanmaxRow_isSome jb
        (clampRow_head_isSome (fun j2 hj => hgm b j2 hj) hjb)
    · rw [if_neg hbi]
      by_cases hit : i < t
      · rw [if_pos hit]
        exact nanmaxRow_isSome ja
          (clampRow_head_isSome (fun j2 hj => hgm t j2 hj) hja)
      · rw [if_neg hit]
        by_cases hgi : good (M i) = []
        · exfalso
          have hti : t < i := by
            rcases lt_or_eq_of_le (not_lt.mp hit) with h | h
            · exact h
            · exfalso
              rw [h] at hgoodt
              exact hgoodt hgi
          obtain ⟨jt, hjt⟩ := good_exists_of_ne_nil hgoodt
          obtain ⟨jb2, hjb2⟩ := good_exists_of_ne_nil hgoodb
          obtain ⟨jv, hjv⟩ := h3 i t b jt jb2 hjt hjb2 hti (not_le.mp hbi)
          exact (good_ne_nil_of_mem hjv) hgi
        · obtain ⟨a2, ha2⟩ := good_head?_of_ne_nil hgi
          obtain ⟨b2, hb2⟩ := good_getLast?_of_ne_nil hgi
          rw [clampRow_eq ha2 hb2]
          simp only
          by_cases hja2 : j < a2
          · rw [if_pos hja2]
            exact hgm i a2 (mem_good.mp (List.mem_of_mem_head? ha2))
          · rw [if_neg hja2]
            by_cases hjb2 : b2 ≤ j
            · rw [if_pos hjb2]
              exact hgm i b2 (mem_good.mp (mem_of_getLast? hb2))
            · rw [if_neg hjb2]
              apply hgm i j
              exact h2 i a2 b2 j (mem_good.mp (List.mem_of_mem_head? ha2))
                (mem_good.mp (mem_of_getLast? hb2)) (not_lt.mp hja2)
                (le_of_lt (not_le.mp hjb2))

theorem clampRow_isSome_zero {W : Nat} {r : Fin W → Option ℚ}
    {m : Fin W → Bool} (hrm : ∀ j, m j = true → (r j).isSome = true)
    (hW : 0 < W) (hne : good m ≠ []) :
    (clampRow r m ⟨0, hW⟩).isSome = true := by
  obtain ⟨a2, ha2⟩ := good_head?_of_ne_nil hne
  obtain ⟨b2, hb2⟩ := good_getLast?_of_ne_nil hne
  rw [clampRow_eq ha2 hb2]
  simp only
  by_cases h : (⟨0, hW⟩ : Fin W) < a2
  · rw [if_pos h]
    exact hrm a2 (mem_good.mp (List.mem_of_mem_head? ha2))
  · rw [if_neg h]
    by_cases h2 : b2 ≤ ⟨0, hW⟩
    · rw [if_pos h2]
      exact hrm b2 (mem_good.mp (mem_of_getLast? hb2))
    · rw [if_neg h2]
      have ha0 : a2 = ⟨0, hW⟩ := by
        apply Fin.le_antisymm (not_lt.mp h)
        rw [Fin.le_def]
        show 0 ≤ (a2 : ℕ)
        omega
      apply hrm
      rw [← ha0]
      exact mem_good.mp (List.mem_of_mem_head? ha2)

theorem clampRow_isSome_last {W : Nat} {r : Fin W → Option ℚ}
    {m : Fin W → Bool} (hrm : ∀ j, m j = true → (r j).isSome = true)
    (hW : 0 < W) (hne : good m ≠ []) :
    (clampRow r m ⟨W - 1, by omega⟩).isSome = true := by
  obtain ⟨a2, ha2⟩ := good_head?_of_ne_nil hne
  obtain ⟨b2, hb2⟩ := good_getLast?_of_ne_nil hne
  rw [clampRow_eq ha2 hb2]
  show (if (⟨W - 1, by omega⟩ : Fin W) < a2 then r a2
    else if b2 ≤ ⟨W - 1, by omega⟩ then r b2 else r ⟨W - 1, by omega⟩).isSome = true
  have h : ¬ (⟨W - 1, by omega⟩ : Fin W) < a2 := by
    rw [Fin.lt_def]
    show ¬ W - 1 < (a2 : ℕ)
    have := a2.isLt
    omega
  rw [if_neg h]
  have h2 : b2 ≤ (⟨W - 1, by omega⟩ : Fin W) := by
    rw [Fin.le_def]
    show (b2 : ℕ) ≤ W - 1
    have := b2.isLt
    omega
  rw [if_pos h2]
  exact hrm b2 (mem_good.mp (mem_of_getLast? hb2))

/-- A grid with two valid rows selected whose row clamping is trivial,
whose top index is row 0, whose bottom index is the last row, and whose
last row is uniformly its own nanmax, is a fixed point of the
compression. -/
theorem compressOne_fix_two {H W : Nat} {g : Gr H W}
    {M : Fin H → Fin W → Bool} {z w : Fin H}
    (hrows : ∀ i, clampRow (g i) (M i) = g i)
    (ht : topIdx M = some z) (hz : (z : ℕ) = 0)
    (hb : bottomIdx M = some w) (hw : (w : ℕ) = H - 1)
    (hlast : ∀ j, g w j = nanmaxRow (g w)) :
    compressOne g M = g := by
  rw [compressOne_two ht hb]
  funext i j
  by_cases hwi : w ≤ i
  · rw [if_pos hwi, hrows w]
    have hiw : i = w := by
      apply Fin.le_antisymm _ hwi
      rw [Fin.le_def, hw]
      have := i.isLt
      omega
    rw [hiw]
    exact (hlast j).symm
  · rw [if_neg hwi]
    have hiz : ¬ i < z := by
      rw [Fin.lt_def, hz]
      omega
    rw [if_neg hiz, hrows i]

/-- A grid whose row clamping is trivial, whose top index is row 0, whose
bottom index is unset, and which is uniformly its own grid nanmax, is a
fixed point of the compression. -/
theorem compressOne_fix_one {H W : Nat} {g : Gr H W}
    {M : Fin H → Fin W → Bool} {z : Fin H}
    (hrows : ∀ i, clampRow (g i) (M i) = g i)
    (ht : topIdx M = some z) (hz : (z : ℕ) = 0)
    (hb : bottomIdx M = none) (hconst : ∀ i j, g i j = nanmaxGrid g) :
    compressOne g M = g := by
  rw [compressOne_one ht hb]
  have hcl : clampAll g M = g := funext hrows
  rw [hcl]
  have how : owTop g (some z) = g := by
    funext i2 j2
    simp only [owTop]
    rw [if_neg]
    rw [Fin.lt_def, hz]
    omega
  rw [how]
  funext i j
  exact (hconst i j).symm

theorem maskG_comm {H W : Nat} (x y : Gr H W) : maskG x y = maskG y x := by
  funext i j
  rw [maskG, maskG]
  exact Bool.and_comm _ _

theorem maskG_left {H W : Nat} {x y : Gr H W} {i : Fin H} {j : Fin W}
    (h : maskG x y i j = true) : (x i j).isSome = true := by
  rw [maskG, Bool.and_eq_true] at h
  exact h.1

/-- Applying the compression a second time does not change the first
component, provided the original mask had at least one valid cell. -/
theorem compressOne_idem_left {H W : Nat} (x y : Gr H W)
    (h1 : ∃ i j, maskG x y i j = true) :
    compressOne (compressOne x (maskG x y))
      (maskG (compressOne x (maskG x y)) (compressOne y (maskG x y))) =
      compressOne x (maskG x y) := by
  set M := maskG x y with hMdef
  set x2 := compressOne x M with hx2def
  set y2 := compressOne y M with hy2def
  set M2 := maskG x2 y2 with hM2def
  obtain ⟨i0, j0, hij0⟩ := h1
  have hH0 : 0 < H := i0.pos
  have hW0 : 0 < W := j0.pos
  obtain ⟨t, ht⟩ := topIdx_isSome_of_valid hij0
  have hgoodt : good (M t) ≠ [] := topIdx_mem ht
  obtain ⟨ja, hja⟩ := good_head?_of_ne_nil hgoodt
  have hxm : ∀ i j, M i j = true → (x i j).isSome = true := by
    intro i j h
    rw [hMdef] at h
    exact maskG_left h
  have hym : ∀ i j, M i j = true → (y i j).isSome = true := by
    intro i j h
    rw [hMdef, maskG_comm] at h
    exact maskG_left h
  cases hbot : bottomIdx M with
  | none =>
    have hx2c : x2 = fun _ _ => nanmaxGrid (owTop (clampAll x M) (some t)) := by
      rw [hx2def]
      exact compressOne_one ht hbot
    have hy2c : y2 = fun _ _ => nanmaxGrid (owTop (clampAll y M) (some t)) := by
      rw [hy2def]
      exact compressOne_one ht hbot
    have hvx : (nanmaxGrid (owTop (clampAll x M) (some t))).isSome = true := by
      apply nanmaxGrid_isSome t ja
      show ((owTop (clampAll x M) (some t)) t ja).isSome = true
      simp only [owTop, if_neg (lt_irrefl t), clampAll]
      exact clampRow_head_isSome (fun j2 hj => hxm t j2 hj) hja
    have hvy : (nanmaxGrid (owTop (clampAll y M) (some t))).isSome = true := by
      apply nanmaxGrid_isSome t ja
      show ((owTop (clampAll y M) (some t)) t ja).isSome = true
      simp only [owTop, if_neg (lt_irrefl t), clampAll]
      exact clampRow_head_isSome (fun j2 hj => hym t j2 hj) hja
    obtain ⟨qx, hqx⟩ := Option.isSome_iff_exists.mp hvx
    have hx2q : ∀ i j, x2 i j = some qx := by
      intro i j
      rw [hx2c]
      exact hqx
    obtain ⟨qy, hqy⟩ := Option.isSome_iff_exists.mp hvy
    have hy2q : ∀ i j, y2 i j = some qy := by
      intro i j
      rw [hy2c]
      exact hqy
    have hM2true : ∀ i j, M2 i j = true := by
      intro i j
      rw [hM2def, maskG, hx2q i j, hy2q i j]
      rfl
    have hrows : ∀ i, clampRow (x2 i) (M2 i) = x2 i := fun i =>
      clampRow_id_of_extremes hW0 (hM2true i ⟨0, hW0⟩)
        (hM2true i ⟨W - 1, by omega⟩)
    have htop2 : topIdx M2 = some ⟨0, hH0⟩ := by
      rw [topIdx]
      apply head?_eq_of_min (validRows_pairwise M2)
        (mem_validRows.mpr (good_ne_nil_of_mem (hM2true ⟨0, hH0⟩ ⟨0, hW0⟩)))
      intro r _
      rw [Fin.le_def]
      show 0 ≤ (r : ℕ)
      omega
    by_cases hH2 : 2 ≤ H
    · have hne : (⟨0, hH0⟩ : Fin H) ≠ ⟨H - 1, by omega⟩ := by
        intro hEq
        have := congrArg Fin.val hEq
        simp only at this
        omega
      have hbot2 : bottomIdx M2 = some ⟨H - 1, by omega⟩ := by
        rw [bottomIdx]
        rw [if_pos (two_le_length_of_two_mem
          (mem_validRows.mpr (good_ne_nil_of_mem (hM2true ⟨0, hH0⟩ ⟨0, hW0⟩)))
          (mem_validRows.mpr
            (good_ne_nil_of_mem (hM2true ⟨H - 1, by omega⟩ ⟨0, hW0⟩))) hne)]
        apply getLast?_eq_of_max (validRows_pairwise M2)
          (mem_validRows.mpr
            (good_ne_nil_of_mem (hM2true ⟨H - 1, by omega⟩ ⟨0, hW0⟩)))
        intro r _
        rw [Fin.le_def]
        show (r : ℕ) ≤ H - 1
        have := r.isLt
        omega
      apply compressOne_fix_two hrows htop2 rfl hbot2 rfl
      intro j
      have hrow : x2 ⟨H - 1, by omega⟩ = fun _ => some qx :=
        funext (fun j2 => hx2q _ j2)
      rw [hx2q, hrow, nanmaxRow_const hW0 (fun _ => rfl)]
    · have hlenle : (validRows M2).length ≤ H := by
        rw [validRows]
        have := List.length_filter_le
          (fun i => !(good (M2 i)).isEmpty) (List.finRange H)
        rw [List.length_finRange] at this
        exact this
      have hbot2 : bottomIdx M2 = none := by
        rw [bottomIdx, if_neg (by omega)]
      apply compressOne_fix_one hrows htop2 rfl hbot2
      intro i j
      have hng : nanmaxGrid x2 = some qx := nanmaxGrid_const hH0 hW0 hx2q
      rw [hx2q i j, hng]
  | some b =>
    have htb : t < b := topIdx_lt_bottomIdx ht hbot
    have hH2 : 2 ≤ H := by
      have hblt := b.isLt
      have := Fin.lt_def.mp htb
      omega
    have hgoodb : good (M b) ≠ [] := bottomIdx_mem hbot
    obtain ⟨jb, hjb⟩ := good_head?_of_ne_nil hgoodb
    have hx2val : ∀ i j, x2 i j =
        if b ≤ i then nanmaxRow (clampRow (x b) (M b))
        else if i < t then nanmaxRow (clampRow (x t) (M t))
        else clampRow (x i) (M i) j := by
      intro i j
      rw [hx2def, compressOne_two ht hbot]
    have hy2val : ∀ i j, y2 i j =
        if b ≤ i then nanmaxRow (clampRow (y b) (M b))
        else if i < t then nanmaxRow (clampRow (y t) (M t))
        else clampRow (y i) (M i) j := by
      intro i j
      rw [hy2def, compressOne_two ht hbot]
    have hUx : (nanmaxRow (clampRow (x t) (M t))).isSome = true :=
      nanmaxRow_isSome ja
        (clampRow_head_isSome (fun j2 hj => hxm t j2 hj) hja)
    have hUy : (nanmaxRow (clampRow (y t) (M t))).isSome = true :=
      nanmaxRow_isSome ja
        (clampRow_head_isSome (fun j2 hj => hym t j2 hj) hja)
    have hVx : (nanmaxRow (clampRow (x b) (M b))).isSome = true :=
      nanmaxRow_isSome jb
        (clampRow_head_isSome (fun j2 hj => hxm b j2 hj) hjb)
    have hVy : (nanmaxRow (clampRow (y b) (M b))).isSome = true :=
      nanmaxRow_isSome jb
        (clampRow_head_isSome (fun j2 hj => hym b j2 hj) hjb)
    have hout : ∀ (i : Fin H) (j : Fin W), b ≤ i ∨ i < t → M2 i j = true := by
      intro i j hreg
      rw [hM2def, maskG, hx2val i j, hy2val i j]
      rcases hreg with h | h
      · rw [if_pos h, if_pos h, hVx, hVy]
        rfl
      · have hbi : ¬ b ≤ i := not_le.mpr (lt_trans h htb)
        rw [if_neg hbi, if_pos h, if_neg hbi, if_pos h, hUx, hUy]
        rfl
    have hmidv : ∀ i : Fin H, ¬ b ≤ i → ¬ i < t → good (M i) ≠ [] →
        M2 i ⟨0, hW0⟩ = true ∧ M2 i ⟨W - 1, by omega⟩ = true := by
      intro i hbi hit hgood
      constructor
      · rw [hM2def, maskG, hx2val, hy2val, if_neg hbi, if_neg hit,
          if_neg hbi, if_neg hit,
          clampRow_isSome_zero (fun j2 hj => hxm i j2 hj) hW0 hgood,
          clampRow_isSome_zero (fun j2 hj => hym i j2 hj) hW0 hgood]
        rfl
      · rw [hM2def, maskG, hx2val, hy2val, if_neg hbi, if_neg hit,
          if_neg hbi, if_neg hit,
          clampRow_isSome_last (fun j2 hj => hxm i j2 hj) hW0 hgood,
          clampRow_isSome_last (fun j2 hj => hym i j2 hj) hW0 hgood]
        rfl
    have hmidn : ∀ i : Fin H, ¬ b ≤ i → ¬ i < t → good (M i) = [] →
        ∀ j, M2 i j = M i j := by
      intro i hbi hit hgood j
      rw [hM2def, maskG, hx2val, hy2val, if_neg hbi, if_neg hit,
        if_neg hbi, if_neg hit, clampRow_of_nil hgood, clampRow_of_nil hgood,
        hMdef]
      rfl
    have h0valid : good (M2 ⟨0, hH0⟩) ≠ [] := by
      by_cases h0t : (⟨0, hH0⟩ : Fin H) < t
      · exact good_ne_nil_of_mem (hout _ ⟨0, hW0⟩ (Or.inr h0t))
      · have hteq : t = ⟨0, hH0⟩ := by
          apply Fin.le_antisymm (not_lt.mp h0t)
          rw [Fin.le_def]
          show 0 ≤ (t : ℕ)
          omega
        have hb0 : ¬ b ≤ (⟨0, hH0⟩ : Fin H) := by
          rw [hteq] at htb
          exact not_le.mpr htb
        have hmv := hmidv ⟨0, hH0⟩ hb0 h0t (by rw [← hteq]; exact hgoodt)
        exact good_ne_nil_of_mem hmv.1
    have htop2 : topIdx M2 = some ⟨0, hH0⟩ := by
      rw [topIdx]
      apply head?_eq_of_min (validRows_pairwise M2) (mem_validRows.mpr h0valid)
      intro r _
      rw [Fin.le_def]
      show 0 ≤ (r : ℕ)
      omega
    have hblast : b ≤ (⟨H - 1, by omega⟩ : Fin H) := by
      rw [Fin.le_def]
      show (b : ℕ) ≤ H - 1
      have := b.isLt
      omega
    have hlastvalid : good (M2 ⟨H - 1, by omega⟩) ≠ [] :=
      good_ne_nil_of_mem (hout _ ⟨0, hW0⟩ (Or.inl hblast))
    have hbot2 : bottomIdx M2 = some ⟨H - 1, by omega⟩ := by
      rw [bottomIdx]
      have hne : (⟨0, hH0⟩ : Fin H) ≠ ⟨H - 1, by omega⟩ := by
        intro hEq
        have := congrArg Fin.val hEq
        simp only at this
        omega
      rw [if_pos (two_le_length_of_two_mem (mem_validRows.mpr h0valid)
        (mem_validRows.mpr hlastvalid) hne)]
      apply getLast?_eq_of_max (validRows_pairwise M2)
        (mem_validRows.mpr hlastvalid)
      intro r _
      rw [Fin.le_def]
      show (r : ℕ) ≤ H - 1
      have := r.isLt
      omega
    have hrows : ∀ i, clampRow (x2 i) (M2 i) = x2 i := by
      intro i
      by_cases hbi : b ≤ i
      · exact clampRow_id_of_extremes hW0 (hout i _ (Or.inl hbi))
          (hout i _ (Or.inl hbi))
      · by_cases hit : i < t
        · exact clampRow_id_of_extremes hW0 (hout i _ (Or.inr hit))
            (hout i _ (Or.inr hit))
        · by_cases hgood : good (M i) = []
          · have hg2 : good (M2 i) = [] := by
              rw [good_congr (hmidn i hbi hit hgood)]
              exact hgood
            exact clampRow_of_nil hg2
          · obtain ⟨hm0, hml⟩ := hmidv i hbi hit hgood
            exact clampRow_id_of_extremes hW0 hm0 hml
    apply compressOne_fix_two hrows htop2 rfl hbot2 rfl
    intro j
    obtain ⟨qv, hqv⟩ :=
      Option.isSome_iff_exists.mp hVx
    have hrow : x2 ⟨H - 1, by omega⟩ = fun _ => some qv := by
      funext j2
      rw [hx2val, if_pos hblast, hqv]
    rw [hx2val, if_pos hblast, hqv, hrow, nanmaxRow_const hW0 (fun _ => rfl)]

theorem pc_loop_vert {H W Hc Wc : Nat} (M : Fin H → Fin W → Bool)
    (rx ry : Nat) (hxy : rx ≠ ry) :
    ∀ (l : List (Fin H)) (s : PcHeap H W Hc Wc), l.Nodup →
      ((l.foldl (pc_loop_step M rx ry) s).vert rx = fun i =>
          if i ∈ l then clampRow (s.vert rx i) (M i) else s.vert rx i) ∧
      ((l.foldl (pc_loop_step M rx ry) s).vert ry = fun i =>
          if i ∈ l then clampRow (s.vert ry i) (M i) else s.vert ry i) ∧
      (l.foldl (pc_loop_step M rx ry) s).cell = s.cell := by
  have hyx : ry ≠ rx := fun h => hxy h.symm
  intro l
  induction l with
  | nil =>
    intro s _
    rw [List.foldl_nil]
    refine ⟨?_, ?_, rfl⟩ <;> funext i <;> rw [if_neg (List.not_mem_nil i)]
  | cons a l ih =>
    intro s hnd
    have hal : a ∉ l := (List.nodup_cons.mp hnd).1
    have hln : l.Nodup := (List.nodup_cons.mp hnd).2
    rw [List.foldl_cons]
    by_cases hga : (good (M a)).isEmpty = true
    · have hstep : pc_loop_step M rx ry s a = s := by
        rw [pc_loop_step, if_pos hga]
      rw [hstep]
      have hclamp : clampRow (s.vert rx a) (M a) = s.vert rx a :=
        clampRow_of_nil (List.isEmpty_iff.mp hga)
      have hclampy : clampRow (s.vert ry a) (M a) = s.vert ry a :=
        clampRow_of_nil (List.isEmpty_iff.mp hga)
      obtain ⟨ih1, ih2, ih3⟩ := ih s hln
      refine ⟨?_, ?_, ih3⟩
      · rw [ih1]
        funext i
        by_cases hia : i = a
        · subst hia
          rw [if_neg hal, if_pos (List.mem_cons_self i l), hclamp]
        · have hmem : i ∈ a :: l ↔ i ∈ l := by
            rw [List.mem_cons]
            exact ⟨fun h => h.resolve_left hia, Or.inr⟩
          by_cases hil : i ∈ l
          · rw [if_pos hil, if_pos (hmem.mpr hil)]
          · rw [if_neg hil, if_neg (fun h => hil (hmem.mp h))]
      · rw [ih2]
        funext i
        by_cases hia : i = a
        · subst hia
          rw [if_neg hal, if_pos (List.mem_cons_self i l), hclampy]
        · have hmem : i ∈ a :: l ↔ i ∈ l := by
            rw [List.mem_cons]
            exact ⟨fun h => h.resolve_left hia, Or.inr⟩
          by_cases hil : i ∈ l
          · rw [if_pos hil, if_pos (hmem.mpr hil)]
          · rw [if_neg hil, if_neg (fun h => hil (hmem.mp h))]
    · have hvx : (pc_loop_step M rx ry s a).vert rx =
          updateRow (s.vert rx) a (clampRow (s.vert rx a) (M a)) := by
        rw [pc_loop_step, if_neg hga]
        simp only [pwriteV, updFn]
        simp [hxy, hyx]
      have hvy : (pc_loop_step M rx ry s a).vert ry =
          updateRow (s.vert ry) a (clampRow (s.vert ry a) (M a)) := by
        rw [pc_loop_step, if_neg hga]
        simp only [pwriteV, updFn]
        simp [hxy, hyx]
      have hvc : (pc_loop_step M rx ry s a).cell = s.cell := by
        rw [pc_loop_step, if_neg hga]
        rfl
      obtain ⟨ih1, ih2, ih3⟩ := ih (pc_loop_step M rx ry s a) hln
      refine ⟨?_, ?_, by rw [ih3, hvc]⟩
      · rw [ih1, hvx]
        funext i
        by_cases hia : i = a
        · subst hia
          rw [if_neg hal, if_pos (List.mem_cons_self i l)]
          rw [updateRow, if_pos rfl]
        · have hmem : i ∈ a :: l ↔ i ∈ l := by
            rw [List.mem_cons]
            exact ⟨fun h => h.resolve_left hia, Or.inr⟩
          have hrow : updateRow (s.vert rx) a
              (clampRow (s.vert rx a) (M a)) i = s.vert rx i := by
            rw [updateRow, if_neg hia]
          by_cases hil : i ∈ l
          · rw [if_pos hil, if_pos (hmem.mpr hil), hrow]
          · rw [if_neg hil, if_neg (fun h => hil (hmem.mp h)), hrow]
      · rw [ih2, hvy]
        funext i
        by_cases hia : i = a
        · subst hia
          rw [if_neg hal, if_pos (List.mem_cons_self i l)]
          rw [updateRow, if_pos rfl]
        · have hmem : i ∈ a :: l ↔ i ∈ l := by
            rw [List.mem_cons]
            exact ⟨fun h => h.resolve_left hia, Or.inr⟩
          have hrow : updateRow (s.vert ry) a
              (clampRow (s.vert ry a) (M a)) i = s.vert ry i := by
            rw [updateRow, if_neg hia]
          by_cases hil : i ∈ l
          · rw [if_pos hil, if_pos (hmem.mpr hil), hrow]
          · rw [if_neg hil, if_neg (fun h => hil (hmem.mp h)), hrow]

/-- C10: `pcolormesh_nan` mutates its `x` and `y` array arguments in
place - after the call the caller references hold exactly the compressed
grids - while the frame object `c` is never written (the cell store of
the heap is untouched).  The hypothesis asks that the caller did not pass
the same array object for `x` and `y`, which is how `plot_map` calls it. -/
theorem c10_inplace {H W Hc Wc : Nat} (s : PcHeap H W Hc Wc)
    (rx ry rc : Nat) (hxy : rx ≠ ry) :
    (pcolormesh_nan_run s rx ry rc).vert rx =
      (pcolormesh_nan (s.vert rx) (s.vert ry)).1 ∧
    (pcolormesh_nan_run s rx ry rc).vert ry =
      (pcolormesh_nan (s.vert rx) (s.vert ry)).2 ∧
    (pcolormesh_nan_run s rx ry rc).cell = s.cell := by
  have hyx : ry ≠ rx := fun h => hxy h.symm
  obtain ⟨h1, h2, h3⟩ := @pc_loop_vert H W Hc Wc
    (maskG (s.vert rx) (s.vert ry)) rx ry hxy (List.finRange H) s
    (List.nodup_finRange H)
  have hx1 : ((List.finRange H).foldl
      (pc_loop_step (maskG (s.vert rx) (s.vert ry)) rx ry) s).vert rx =
      clampAll (s.vert rx) (maskG (s.vert rx) (s.vert ry)) := by
    rw [h1]
    funext i
    rw [if_pos (List.mem_finRange i)]
    rfl
  have hy1 : ((List.finRange H).foldl
      (pc_loop_step (maskG (s.vert rx) (s.vert ry)) rx ry) s).vert ry =
      clampAll (s.vert ry) (maskG (s.vert rx) (s.vert ry)) := by
    rw [h2]
    funext i
    rw [if_pos (List.mem_finRange i)]
    rfl
  refine ⟨?_, ?_, ?_⟩
  · simp only [pcolormesh_nan_run, pwriteV, updFn]
    simp only [if_neg hxy, if_pos rfl, hx1]
    simp only [if_true]
    rfl
  · simp only [pcolormesh_nan_run, pwriteV, updFn]
    simp only [if_neg hyx, if_pos rfl, hx1, hy1]
    simp only [if_true]
    rfl
  · simp only [pcolormesh_nan_run, pwriteV]
    exact h3

theorem maskG_right {H W : Nat} {x y : Gr H W} {i : Fin H} {j : Fin W}
    (h : maskG x y i j = true) : (y i j).isSome = true := by
  rw [maskG, Bool.and_eq_true] at h
  exact h.2

/-- C8: `_mask_low_horizon` does not mutate the caller arrays: running
the statement-by-statement heap transcription leaves the values at the
caller references for the frame and the two coordinate grids unchanged,
and the references it returns hold exactly the masked copies described by
the value-level `mask_low_horizon`. -/
theorem c8_no_mutation {H W : Nat} (s : MlhHeap H W) (rFrame rLon rLat : Nat)
    (el : Gr H W) (m : ℚ) (hF : rFrame < s.nextC) (hLon : rLon < s.nextV)
    (hLat : rLat < s.nextV) :
    (mask_low_horizon_run s rFrame rLon rLat el m).1.cell rFrame = s.cell rFrame ∧
    (mask_low_horizon_run s rFrame rLon rLat el m).1.vert rLon = s.vert rLon ∧
    (mask_low_horizon_run s rFrame rLon rLat el m).1.vert rLat = s.vert rLat ∧
    (mask_low_horizon_run s rFrame rLon rLat el m).1.cell
        (mask_low_horizon_run s rFrame rLon rLat el m).2.1 =
      (mask_low_horizon (s.cell rFrame) el (s.vert rLon) (s.vert rLat) m).1 ∧
    (mask_low_horizon_run s rFrame rLon rLat el m).1.vert
        (mask_low_horizon_run s rFrame rLon rLat el m).2.2.1 =
      (mask_low_horizon (s.cell rFrame) el (s.vert rLon) (s.vert rLat) m).2.1 ∧
    (mask_low_horizon_run s rFrame rLon rLat el m).1.vert
        (mask_low_horizon_run s rFrame rLon rLat el m).2.2.2 =
      (mask_low_horizon (s.cell rFrame) el (s.vert rLon) (s.vert rLat) m).2.2 := by
  have h1 : rFrame ≠ s.nextC := by omega
  have h2 : rFrame ≠ s.nextC + 1 := by omega
  have h3 : rLon ≠ s.nextV := by omega
  have h4 : rLon ≠ s.nextV + 1 := by omega
  have h5 : rLat ≠ s.nextV := by omega
  have h6 : rLat ≠ s.nextV + 1 := by omega
  have h7 : s.nextC + 1 ≠ s.nextC := by omega
  have h8 : s.nextV + 1 ≠ s.nextV := by omega
  have h9 : s.nextV ≠ s.nextV + 1 := by omega
  refine ⟨?_, ?_, ?_, ?_, ?_, ?_⟩ <;>
    simp [mask_low_horizon_run, mask_low_horizon, updFn, h1, h2, h3, h4, h5,
      h6, h7, h8, h9]

theorem vertMaskCells_none_or {H W : Nat} (g : Gr (H + 1) (W + 1))
    (bad : Fin H → Fin W → Bool) (r : Fin (H + 1)) (c : Fin (W + 1)) :
    vertMaskCells g bad r c = none ∨ vertMaskCells g bad r c = g r c := by
  rw [vertMaskCells]
  by_cases hin : (r : ℕ) < H ∧ (c : ℕ) < W
  · rw [dif_pos hin]
    by_cases hb : bad ⟨r, hin.1⟩ ⟨c, hin.2⟩ = true
    · rw [if_pos hb]
      exact Or.inl rfl
    · rw [if_neg hb]
      exact Or.inr rfl
  · rw [dif_neg hin]
    exact Or.inr rfl

theorem vertMaskBelow_none_or {H W : Nat} (g : Gr (H + 1) (W + 1))
    (bad : Fin H → Fin W → Bool) (r : Fin (H + 1)) (c : Fin (W + 1)) :
    vertMaskBelow g bad r c = none ∨ vertMaskBelow g bad r c = g r c := by
  rw [vertMaskBelow]
  by_cases hin : 1 ≤ (r : ℕ) ∧ (r : ℕ) - 1 < H ∧ (c : ℕ) < W
  · rw [dif_pos hin]
    by_cases hb : bad ⟨(r : ℕ) - 1, hin.2.1⟩ ⟨c, hin.2.2⟩ = true
    · rw [if_pos hb]
      exact Or.inl rfl
    · rw [if_neg hb]
      exact Or.inr rfl
  · rw [dif_neg hin]
    exact Or.inr rfl

theorem vertMaskRight_none_or {H W : Nat} (g : Gr (H + 1) (W + 1))
    (bad : Fin H → Fin W → Bool) (r : Fin (H + 1)) (c : Fin (W + 1)) :
    vertMaskRight g bad r c = none ∨ vertMaskRight g bad r c = g r c := by
  rw [vertMaskRight]
  by_cases hin : 1 ≤ (c : ℕ) ∧ (r : ℕ) < H ∧ (c : ℕ) - 1 < W
  · rw [dif_pos hin]
    by_cases hb : bad ⟨r, hin.2.1⟩ ⟨(c : ℕ) - 1, hin.2.2⟩ = true
    · rw [if_pos hb]
      exact Or.inl rfl
    · rw [if_neg hb]
      exact Or.inr rfl
  · rw [dif_neg hin]
    exact Or.inr rfl

theorem vertMaskCells_bad {H W : Nat} (g : Gr (H + 1) (W + 1))
    {bad : Fin H → Fin W → Bool} {r0 : Fin H} {c0 : Fin W}
    (h : bad r0 c0 = true) :
    vertMaskCells g bad r0.castSucc c0.castSucc = none := by
  rw [vertMaskCells, dif_pos (⟨r0.isLt, c0.isLt⟩ :
    ((r0.castSucc : ℕ) < H ∧ (c0.castSucc : ℕ) < W))]
  simp only [Fin.coe_castSucc, Fin.eta]
  rw [if_pos h]

theorem vertMaskBelow_bad {H W : Nat} (g : Gr (H + 1) (W + 1))
    {bad : Fin H → Fin W → Bool} {r0 : Fin H} {c0 : Fin W}
    (h : bad r0 c0 = true) :
    vertMaskBelow g bad r0.succ c0.castSucc = none := by
  rw [vertMaskBelow, dif_pos (⟨Nat.succ_le_succ (Nat.zero_le _), r0.isLt,
    c0.isLt⟩ : (1 ≤ (r0.succ : ℕ) ∧ ((r0.succ : ℕ) - 1 < H ∧
      (c0.castSucc : ℕ) < W)))]
  simp only [Fin.val_succ, Nat.add_sub_cancel, Fin.coe_castSucc, Fin.eta]
  rw [if_pos h]

theorem vertMaskRight_bad {H W : Nat} (g : Gr (H + 1) (W + 1))
    {bad : Fin H → Fin W → Bool} {r0 : Fin H} {c0 : Fin W}
    (h : bad r0 c0 = true) :
    vertMaskRight g bad r0.castSucc c0.succ = none := by
  rw [vertMaskRight, dif_pos (⟨Nat.succ_le_succ (Nat.zero_le _), r0.isLt,
    c0.isLt⟩ : (1 ≤ (c0.succ : ℕ) ∧ ((r0.castSucc : ℕ) < H ∧
      (c0.succ : ℕ) - 1 < W)))]
  simp only [Fin.val_succ, Nat.add_sub_cancel, Fin.coe_castSucc, Fin.eta]
  rw [if_pos h]

theorem vertMaskCells_not_bad {H W : Nat} {g : Gr (H + 1) (W + 1)}
    {bad : Fin H → Fin W → Bool} {r : Fin (H + 1)} {c : Fin (W + 1)}
    (h : ∀ (hr : (r : ℕ) < H) (hc : (c : ℕ) < W), bad ⟨r, hr⟩ ⟨c, hc⟩ = false) :
    vertMaskCells g bad r c = g r c := by
  rw [vertMaskCells]
  by_cases hin : (r : ℕ) < H ∧ (c : ℕ) < W
  · rw [dif_pos hin, if_neg (by rw [h hin.1 hin.2]; simp)]
  · rw [dif_neg hin]

theorem vertMaskBelow_not_bad {H W : Nat} {g : Gr (H + 1) (W + 1)}
    {bad : Fin H → Fin W → Bool} {r : Fin (H + 1)} {c : Fin (W + 1)}
    (h : ∀ (h1 : 1 ≤ (r : ℕ)) (hr : (r : ℕ) - 1 < H) (hc : (c : ℕ) < W),
      bad ⟨(r : ℕ) - 1, hr⟩ ⟨c, hc⟩ = false) :
    vertMaskBelow g bad r c = g r c := by
  rw [vertMaskBelow]
  by_cases hin : 1 ≤ (r : ℕ) ∧ (r : ℕ) - 1 < H ∧ (c : ℕ) < W
  · rw [dif_pos hin, if_neg (by rw [h hin.1 hin.2.1 hin.2.2]; simp)]
  · rw [dif_neg hin]

theorem vertMaskRight_not_bad {H W : Nat} {g : Gr (H + 1) (W + 1)}
    {bad : Fin H → Fin W → Bool} {r : Fin (H + 1)} {c : Fin (W + 1)}
    (h : ∀ (h1 : 1 ≤ (c : ℕ)) (hr : (r : ℕ) < H) (hc : (c : ℕ) - 1 < W),
      bad ⟨r, hr⟩ ⟨(c : ℕ) - 1, hc⟩ = false) :
    vertMaskRight g bad r c = g r c := by
  rw [vertMaskRight]
  by_cases hin : 1 ≤ (c : ℕ) ∧ (r : ℕ) < H ∧ (c : ℕ) - 1 < W
  · rw [dif_pos hin, if_neg (by rw [h hin.1 hin.2.1 hin.2.2]; simp)]
  · rw [dif_neg hin]

theorem vert_chain_none_of_cells {H W : Nat} {g : Gr (H + 1) (W + 1)}
    {bad : Fin H → Fin W → Bool} {r : Fin (H + 1)} {c : Fin (W + 1)}
    (h : vertMaskCells g bad r c = none) :
    vertMaskRight (vertMaskBelow (vertMaskCells g bad) bad) bad r c = none := by
  rcases vertMaskRight_none_or (vertMaskBelow (vertMaskCells g bad) bad) bad r c
    with h1 | h1
  · exact h1
  · rw [h1]
    rcases vertMaskBelow_none_or (vertMaskCells g bad) bad r c with h2 | h2
    · exact h2
    · rw [h2, h]

theorem vert_chain_none_of_below {H W : Nat} {g : Gr (H + 1) (W + 1)}
    {bad : Fin H → Fin W → Bool} {r : Fin (H + 1)} {c : Fin (W + 1)}
    (h : vertMaskBelow (vertMaskCells g bad) bad r c = none) :
    vertMaskRight (vertMaskBelow (vertMaskCells g bad) bad) bad r c = none := by
  rcases vertMaskRight_none_or (vertMaskBelow (vertMaskCells g bad) bad) bad r c
    with h1 | h1
  · exact h1
  · rw [h1, h]

/-- C1: the claim says that with exactly one valid row (strictly interior)
the rows above and below are filled with that row maximum while the valid
row itself keeps its valid entries.  The code disagrees: with exactly one
valid row `bottom` is never assigned, so the final statement evaluates
`x[None:, :] = np.nanmax(x[None, :])`, which overwrites every row -
including the valid one - with the grid-wide nanmax.  On a 3-by-2 grid
whose middle row is (1, 2), the whole output is uniformly 2, and the
jointly valid entry 1 is destroyed. -/
theorem c1_single_valid_row_overwritten :
    pcolormesh_nan c1grid c1grid =
      ((fun _ _ => some 2), (fun _ _ => some 2)) ∧
    c1grid 1 0 = some 1 ∧ maskG c1grid c1grid 1 0 = true := by
  refine ⟨by decide, by decide, by decide⟩

/-- C2: the claim says a grid pair with no valid entry anywhere raises a
fatal data-quality error.  The code raises nothing: `top` and `bottom`
stay `None`, `np.nanmax` of the all-NaN array returns NaN with only a
RuntimeWarning, and the two trailing slice assignments overwrite the whole
grids with NaN, so the compressor silently returns fully invalid output
grids instead of failing. -/
theorem c2_all_invalid_no_error :
    pcolormesh_nan c2grid c2grid = (c2grid, c2grid) ∧
    (∀ i j, (pcolormesh_nan c2grid c2grid).1 i j = none) := by
  refine ⟨by decide, by decide⟩

/-- C3 counterexample: a 3-by-1 grid pair whose first and last rows are
valid but whose middle row is fully invalid has a valid entry, yet the
compressed output still contains an invalid entry at the middle row: the
row loop skips fully invalid rows and the trailing overwrites only touch
rows before `top` and from `bottom` on, so interior invalid rows survive. -/
theorem c3_counterexample :
    maskG c3grid c3grid 0 0 = true ∧
    (pcolormesh_nan c3grid c3grid).1 1 0 = none := by
  refine ⟨by decide, by decide⟩

/-- C3 amended: the output grids of `pcolormesh_nan` contain zero invalid
entries provided (beyond the existence of one jointly valid cell) that the
jointly valid columns of each row form an interval and that every row
strictly between two valid rows is itself valid; the output dimensions
always equal the input dimensions (enforced here by the type `Gr H W` of
the result, mirroring that the code only writes into the existing
arrays). -/
theorem c3_amended {H W : Nat} (x y : Gr H W)
    (h1 : ∃ i j, maskG x y i j = true)
    (h2 : ∀ (i : Fin H) (j1 j2 j : Fin W), maskG x y i j1 = true →
      maskG x y i j2 = true → j1 ≤ j → j ≤ j2 → maskG x y i j = true)
    (h3 : ∀ (i i1 i2 : Fin H) (j1 j2 : Fin W), maskG x y i1 j1 = true →
      maskG x y i2 j2 = true → i1 < i → i < i2 → ∃ j, maskG x y i j = true) :
    ∀ (i : Fin H) (j : Fin W),
      ((pcolormesh_nan x y).1 i j).isSome = true ∧
      ((pcolormesh_nan x y).2 i j).isSome = true := by
  intro i j
  exact ⟨compress_total (fun i2 j2 h => maskG_left h) h1 h2 h3 i j,
         compress_total (fun i2 j2 h => maskG_right h) h1 h2 h3 i j⟩

/-- Witness for the amended C3 at a fully valid 2-by-2 grid pair. -/
theorem c3_amended_witness :
    ((∃ i j, maskG c6grid c6grid i j = true) ∧
     (∀ (i : Fin 2) (j1 j2 j : Fin 2), maskG c6grid c6grid i j1 = true →
        maskG c6grid c6grid i j2 = true → j1 ≤ j → j ≤ j2 →
        maskG c6grid c6grid i j = true) ∧
     (∀ (i i1 i2 : Fin 2) (j1 j2 : Fin 2), maskG c6grid c6grid i1 j1 = true →
        maskG c6grid c6grid i2 j2 = true → i1 < i → i < i2 →
        ∃ j, maskG c6grid c6grid i j = true)) ∧
    (((pcolormesh_nan c6grid c6grid).1 0 0).isSome = true ∧
     ((pcolormesh_nan c6grid c6grid).2 0 0).isSome = true) :=
  ⟨⟨by decide, by decide, by decide⟩,
   c3_amended c6grid c6grid (by decide) (by decide) (by decide) 0 0⟩

/-- C4: the exact altitude mode of `trex_rgb`: when the meters-to-km
converted calibration stack matches the requested altitude at exactly one
index, the latitude and longitude grids stored at that index are
returned; when the match list does not have length one (zero or several
matches), the assertion fails and the error carries the km-converted
altitude set that the message interpolates. -/
theorem c4_alt_exact {H W : Nat} (altitudes_m : List ℚ)
    (latStack lonStack : List (Gr H W)) (alt : ℚ) :
    (∀ i : Nat, altMatches altitudes_m alt = [i] →
      trex_resolve_alt altitudes_m latStack lonStack alt =
        .ok (latStack.getD i zeroGrid, lonStack.getD i zeroGrid)) ∧
    ((altMatches altitudes_m alt).length ≠ 1 →
      trex_resolve_alt altitudes_m latStack lonStack alt =
        .error (altitudes_m.map (fun a => a / 1000))) := by
  constructor
  · intro i h
    rw [trex_resolve_alt]
    simp only [h]
    rfl
  · intro h
    rw [trex_resolve_alt]
    simp only [if_neg h]

/-- Witness for C4 on the altitude stack of the spec example: 90, 110,
130 km; requesting 110 km returns the grids stored at index 1, requesting
111 km errors with the km-valued altitude list. -/
theorem c4_alt_exact_witness :
    (altMatches [90000, 110000, 130000] (110 : ℚ) = [1] ∧
      (altMatches [90000, 110000, 130000] (111 : ℚ)).length ≠ 1) ∧
    trex_resolve_alt [90000, 110000, 130000] c4latStack c4lonStack 110 =
      .ok (c4latStack.getD 1 zeroGrid, c4lonStack.getD 1 zeroGrid) ∧
    trex_resolve_alt [90000, 110000, 130000] c4latStack c4lonStack 111 =
      .error ([90000, 110000, 130000].map (fun a => a / 1000)) :=
  ⟨⟨by rw [altMatches]; norm_num [List.range_succ, List.filter_append,
      List.filter_cons],
    by rw [altMatches]; norm_num [List.range_succ, List.filter_append,
      List.filter_cons]⟩,
   (c4_alt_exact [90000, 110000, 130000] c4latStack c4lonStack 110).1 1
     (by rw [altMatches]; norm_num [List.range_succ, List.filter_append,
       List.filter_cons]),
   (c4_alt_exact [90000, 110000, 130000] c4latStack c4lonStack 111).2
     (by rw [altMatches]; norm_num [List.range_succ, List.filter_append,
       List.filter_cons])⟩

/-- C5 counterexample: the claim says the vertex diagonally adjacent at
(r+1, c+1) to a bad cell is also invalidated; the code only invalidates
(r, c), (r+1, c) and (r, c+1).  With a single bad 1-by-1 cell the vertex
(1, 1) keeps its value. -/
theorem c5_counterexample :
    badCells c5el 10 0 0 = true ∧
    (mask_low_horizon c5frame c5el c5vert c5vert 10).2.1 1 1 = some 13 := by
  refine ⟨by decide, by decide⟩

/-- C5 amended: for every bad cell (r, c) the masker invalidates the frame
at (r, c) and the longitude and latitude vertices at (r, c), (r+1, c) and
(r, c+1) - but not (r+1, c+1); frame entries at good cells and vertices at
none of those three positions relative to any bad cell are unchanged. -/
theorem c5_amended {H W : Nat} (frame el : Gr H W)
    (lon lat : Gr (H + 1) (W + 1)) (m : ℚ) :
    (∀ (r : Fin H) (c : Fin W), badCells el m r c = true →
      (mask_low_horizon frame el lon lat m).1 r c = none ∧
      ((mask_low_horizon frame el lon lat m).2.1 r.castSucc c.castSucc = none ∧
       (mask_low_horizon frame el lon lat m).2.1 r.succ c.castSucc = none ∧
       (mask_low_horizon frame el lon lat m).2.1 r.castSucc c.succ = none) ∧
      ((mask_low_horizon frame el lon lat m).2.2 r.castSucc c.castSucc = none ∧
       (mask_low_horizon frame el lon lat m).2.2 r.succ c.castSucc = none ∧
       (mask_low_horizon frame el lon lat m).2.2 r.castSucc c.succ = none)) ∧
    (∀ (r : Fin H) (c : Fin W), badCells el m r c = false →
      (mask_low_horizon frame el lon lat m).1 r c = frame r c) ∧
    (∀ (r : Fin (H + 1)) (c : Fin (W + 1)),
      (¬ ∃ (r0 : Fin H) (c0 : Fin W), badCells el m r0 c0 = true ∧
        ((r = r0.castSucc ∧ c = c0.castSucc) ∨ (r = r0.succ ∧ c = c0.castSucc) ∨
          (r = r0.castSucc ∧ c = c0.succ))) →
      (mask_low_horizon frame el lon lat m).2.1 r c = lon r c ∧
      (mask_low_horizon frame el lon lat m).2.2 r c = lat r c) := by
  refine ⟨?_, ?_, ?_⟩
  · intro r c h
    refine ⟨?_, ⟨?_, ?_, ?_⟩, ⟨?_, ?_, ?_⟩⟩
    · show cellMask frame (badCells el m) r c = none
      rw [cellMask, if_pos h]
    · exact vert_chain_none_of_cells (vertMaskCells_bad lon h)
    · exact vert_chain_none_of_below (vertMaskBelow_bad _ h)
    · exact vertMaskRight_bad _ h
    · exact vert_chain_none_of_cells (vertMaskCells_bad lat h)
    · exact vert_chain_none_of_below (vertMaskBelow_bad _ h)
    · exact vertMaskRight_bad _ h
  · intro r c h
    show cellMask frame (badCells el m) r c = frame r c
    rw [cellMask, if_neg (by rw [h]; simp)]
  · intro r c hno
    have hA : ∀ (hr : (r : ℕ) < H) (hc : (c : ℕ) < W),
        badCells el m ⟨r, hr⟩ ⟨c, hc⟩ = false := by
      intro hr hc
      by_contra hb
      have hb2 : badCells el m ⟨r, hr⟩ ⟨c, hc⟩ = true := by
        revert hb
        cases badCells el m ⟨r, hr⟩ ⟨c, hc⟩ <;> simp
      exact hno ⟨⟨r, hr⟩, ⟨c, hc⟩, hb2, Or.inl ⟨Fin.ext rfl, Fin.ext rfl⟩⟩
    have hB : ∀ (h1 : 1 ≤ (r : ℕ)) (hr : (r : ℕ) - 1 < H) (hc : (c : ℕ) < W),
        badCells el m ⟨(r : ℕ) - 1, hr⟩ ⟨c, hc⟩ = false := by
      intro h1 hr hc
      by_contra hb
      have hb2 : badCells el m ⟨(r : ℕ) - 1, hr⟩ ⟨c, hc⟩ = true := by
        revert hb
        cases badCells el m ⟨(r : ℕ) - 1, hr⟩ ⟨c, hc⟩ <;> simp
      refine hno ⟨⟨(r : ℕ) - 1, hr⟩, ⟨c, hc⟩, hb2,
        Or.inr (Or.inl ⟨Fin.ext ?_, Fin.ext rfl⟩)⟩
      show (r : ℕ) = (r : ℕ) - 1 + 1
      omega
    have hC : ∀ (h1 : 1 ≤ (c : ℕ)) (hr : (r : ℕ) < H) (hc : (c : ℕ) - 1 < W),
        badCells el m ⟨r, hr⟩ ⟨(c : ℕ) - 1, hc⟩ = false := by
      intro h1 hr hc
      by_contra hb
      have hb2 : badCells el m ⟨r, hr⟩ ⟨(c : ℕ) - 1, hc⟩ = true := by
        revert hb
        cases badCells el m ⟨r, hr⟩ ⟨(c : ℕ) - 1, hc⟩ <;> simp
      refine hno ⟨⟨r, hr⟩, ⟨(c : ℕ) - 1, hc⟩, hb2,
        Or.inr (Or.inr ⟨Fin.ext rfl, Fin.ext ?_⟩)⟩
      show (c : ℕ) = (c : ℕ) - 1 + 1
      omega
    constructor
    · show vertMaskRight (vertMaskBelow (vertMaskCells lon (badCells el m))
        (badCells el m)) (badCells el m) r c = lon r c
      rw [vertMaskRight_not_bad hC, vertMaskBelow_not_bad hB,
        vertMaskCells_not_bad hA]
    · show vertMaskRight (vertMaskBelow (vertMaskCells lat (badCells el m))
        (badCells el m)) (badCells el m) r c = lat r c
      rw [vertMaskRight_not_bad hC, vertMaskBelow_not_bad hB,
        vertMaskCells_not_bad hA]

/-- Witness for the amended C5 at the single bad 1-by-1 cell: the three
vertices are invalidated, while the untouched vertex (1, 1) keeps its
value. -/
theorem c5_amended_witness :
    (badCells c5el 10 0 0 = true ∧
      (¬ ∃ (r0 : Fin 1) (c0 : Fin 1), badCells c5el 10 r0 c0 = true ∧
        (((1 : Fin 2) = r0.castSucc ∧ (1 : Fin 2) = c0.castSucc) ∨
         ((1 : Fin 2) = r0.succ ∧ (1 : Fin 2) = c0.castSucc) ∨
         ((1 : Fin 2) = r0.castSucc ∧ (1 : Fin 2) = c0.succ)))) ∧
    ((mask_low_horizon c5frame c5el c5vert c5vert 10).1 0 0 = none ∧
      (((mask_low_horizon c5frame c5el c5vert c5vert 10).2.1 0 0 = none ∧
        (mask_low_horizon c5frame c5el c5vert c5vert 10).2.1 1 0 = none ∧
        (mask_low_horizon c5frame c5el c5vert c5vert 10).2.1 0 1 = none) ∧
       ((mask_low_horizon c5frame c5el c5vert c5vert 10).2.2 0 0 = none ∧
        (mask_low_horizon c5frame c5el c5vert c5vert 10).2.2 1 0 = none ∧
        (mask_low_horizon c5frame c5el c5vert c5vert 10).2.2 0 1 = none))) ∧
    ((mask_low_horizon c5frame c5el c5vert c5vert 10).2.1 1 1 = c5vert 1 1 ∧
     (mask_low_horizon c5frame c5el c5vert c5vert 10).2.2 1 1 = c5vert 1 1) :=
  ⟨⟨by decide, by decide⟩,
   (c5_amended c5frame c5el c5vert c5vert 10).1 0 0 (by decide),
   (c5_amended c5frame c5el c5vert c5vert 10).2.2 1 1 (by decide)⟩

/-- C6 counterexample: the claim says no jointly valid input cell is ever
altered.  Even on a fully valid 2-by-2 grid the slice `x[bottom:, :]`
includes row `bottom` itself, so the last valid row is flattened to its
maximum: the valid entry 3 becomes 4. -/
theorem c6_counterexample :
    maskG c6grid c6grid 1 0 = true ∧ c6grid 1 0 = some 3 ∧
    (pcolormesh_nan c6grid c6grid).1 1 0 = some 4 := by
  refine ⟨by decide, by decide, by decide⟩

/-- C6 amended: the compressor is idempotent - applying it twice yields
the same grids as applying it once - for every grid pair with at least one
jointly valid cell; the no-valid-cell-altered half of the original claim
is dropped (the bottom valid row, and with a single valid row the whole
grid, are flattened to a uniform maximum). -/
theorem c6_amended {H W : Nat} (x y : Gr H W)
    (h1 : ∃ i j, maskG x y i j = true) :
    pcolormesh_nan (pcolormesh_nan x y).1 (pcolormesh_nan x y).2 =
      pcolormesh_nan x y := by
  have hx := compressOne_idem_left x y h1
  have h1y : ∃ i j, maskG y x i j = true := by
    obtain ⟨i, j, h⟩ := h1
    exact ⟨i, j, by rw [maskG_comm]; exact h⟩
  have hy := compressOne_idem_left y x h1y
  rw [maskG_comm y x] at hy
  rw [maskG_comm (compressOne y (maskG x y)) (compressOne x (maskG x y))] at hy
  show (compressOne (compressOne x (maskG x y))
          (maskG (compressOne x (maskG x y)) (compressOne y (maskG x y))),
        compressOne (compressOne y (maskG x y))
          (maskG (compressOne x (maskG x y)) (compressOne y (maskG x y)))) =
    (compressOne x (maskG x y), compressOne y (maskG x y))
  rw [Prod.mk.injEq]
  exact ⟨hx, hy⟩

/-- Witness for the amended C6 at a fully valid 2-by-2 grid pair. -/
theorem c6_amended_witness :
    (∃ i j, maskG c6grid c6grid i j = true) ∧
    pcolormesh_nan (pcolormesh_nan c6grid c6grid).1
        (pcolormesh_nan c6grid c6grid).2 = pcolormesh_nan c6grid c6grid :=
  ⟨by decide, c6_amended c6grid c6grid (by decide)⟩

/-- C7: the claim says a caller-supplied non-auto colormap never triggers
the unrecognized-mission error.  The code contradicts it: both guards of
the `if / elif / else` chain require `color_map == 'auto'`, so every call
with a custom colormap string falls into the `else` branch and raises
`NotImplementedError`, even for a recognized mission.  The auto cases do
behave as claimed (case-insensitive THEMIS to greyscale, REGO to
black-to-red, unrecognized mission to the error). -/
theorem c7_nonauto_colormap_rejected :
    select_color_map "auto" "THEMIS" = .ok .greys_r ∧
    select_color_map "auto" "rego" = .ok .black_to_red ∧
    select_color_map "auto" "trex" = .error () ∧
    select_color_map "viridis" "themis" = .error () ∧
    select_color_map "Greys" "REGO" = .error () :=
  ⟨rfl, rfl, rfl, rfl, rfl⟩

/-- Witness for C8 at a concrete one-cell heap. -/
theorem c8_no_mutation_witness :
    (0 < c8heap.nextC ∧ 0 < c8heap.nextV ∧ 1 < c8heap.nextV) ∧
    ((mask_low_horizon_run c8heap 0 0 1 c8el 10).1.cell 0 = c8heap.cell 0 ∧
     (mask_low_horizon_run c8heap 0 0 1 c8el 10).1.vert 0 = c8heap.vert 0 ∧
     (mask_low_horizon_run c8heap 0 0 1 c8el 10).1.vert 1 = c8heap.vert 1 ∧
     (mask_low_horizon_run c8heap 0 0 1 c8el 10).1.cell
         (mask_low_horizon_run c8heap 0 0 1 c8el 10).2.1 =
       (mask_low_horizon (c8heap.cell 0) c8el (c8heap.vert 0)
         (c8heap.vert 1) 10).1 ∧
     (mask_low_horizon_run c8heap 0 0 1 c8el 10).1.vert
         (mask_low_horizon_run c8heap 0 0 1 c8el 10).2.2.1 =
       (mask_low_horizon (c8heap.cell 0) c8el (c8heap.vert 0)
         (c8heap.vert 1) 10).2.1 ∧
     (mask_low_horizon_run c8heap 0 0 1 c8el 10).1.vert
         (mask_low_horizon_run c8heap 0 0 1 c8el 10).2.2.2 =
       (mask_low_horizon (c8heap.cell 0) c8el (c8heap.vert 0)
         (c8heap.vert 1) 10).2.2) :=
  ⟨⟨by decide, by decide, by decide⟩,
   c8_no_mutation c8heap 0 0 1 c8el 10 (by decide) (by decide) (by decide)⟩

/-- C9: masking is monotone in the threshold: a frame cell left valid by
the horizon masker at the larger threshold T2 is also left valid at the
smaller threshold T1. -/
theorem c9_mask_monotone {H W : Nat} (frame el : Gr H W)
    (lon lat : Gr (H + 1) (W + 1)) (T1 T2 : ℚ) (h12 : T1 < T2)
    (r : Fin H) (c : Fin W)
    (hvalid : ((mask_low_horizon frame el lon lat T2).1 r c).isSome = true) :
    ((mask_low_horizon frame el lon lat T1).1 r c).isSome = true := by
  have hv2 : (cellMask frame (badCells el T2) r c).isSome = true := hvalid
  show (cellMask frame (badCells el T1) r c).isSome = true
  rw [cellMask] at hv2 ⊢
  by_cases hb2 : badCells el T2 r c = true
  · rw [if_pos hb2] at hv2
    simp at hv2
  · have hb1 : ¬ badCells el T1 r c = true := by
      intro hb1
      apply hb2
      rw [badCells] at hb1 ⊢
      cases hel : el r c with
      | none => rfl
      | some v =>
        rw [hel] at hb1
        have hv : v < T1 := of_decide_eq_true hb1
        show decide (v < T2) = true
        exact decide_eq_true (lt_trans hv h12)
    rw [if_neg hb1]
    rw [if_neg hb2] at hv2
    exact hv2

/-- Witness for C9 at an elevation well above both thresholds. -/
theorem c9_mask_monotone_witness :
    ((1 : ℚ) < 2 ∧
      ((mask_low_horizon c5frame c9el c5vert c5vert 2).1 0 0).isSome = true) ∧
    ((mask_low_horizon c5frame c9el c5vert c5vert 1).1 0 0).isSome = true :=
  ⟨⟨by decide, by decide⟩,
   c9_mask_monotone c5frame c9el c5vert c5vert 1 2 (by decide) 0 0 (by decide)⟩

/-- Witness for C10 at a concrete one-cell heap with distinct `x` and `y`
references. -/
theorem c10_inplace_witness :
    ((0 : Nat) ≠ 1) ∧
    ((pcolormesh_nan_run c10heap 0 1 0).vert 0 =
       (pcolormesh_nan (c10heap.vert 0) (c10heap.vert 1)).1 ∧
     (pcolormesh_nan_run c10heap 0 1 0).vert 1 =
       (pcolormesh_nan (c10heap.vert 0) (c10heap.vert 1)).2 ∧
     (pcolormesh_nan_run c10heap 0 1 0).cell = c10heap.cell) :=
  ⟨by decide, c10_inplace c10heap 0 1 0 (by decide)⟩

end Asilib

